import Mathlib

/-!
Verification of `nlup/perceptron.py` (perceptron-like classifiers).

The Python module defines `BinaryPerceptron`, `Perceptron`,
`SequencePerceptron`, plus averaged variants built on the `LazyWeight`
helper class.  We give a shallow embedding: each Python class becomes a
Lean structure, each method a Lean function with the same name.  Python
`dict`s (insertion-ordered) are modelled as association lists; Python
`defaultdict` reads that materialise a default entry are modelled where
the materialisation is observable (the multiclass weight stores), and
noted in doc comments where it is value-irrelevant.  Numeric weights are
`ℤ` for the plain variants and `ℚ` for the averaged ones (Python uses
`int` until the final true division in `LazyWeight.average`).
Timestamps and the logical clock are `ℕ` (the clock starts at 0 and is
only ever incremented).  Python exceptions are modelled by `PyErr`.
-/

/-- Python exceptions that the embedded code can raise. -/
inductive PyErr where
  | keyError : PyErr
  | valueError : PyErr
  | nameError : PyErr
  | attributeError : PyErr
  deriving Repr, DecidableEq

/-- Features are opaque hashable tokens; we use strings. -/
abbrev Feature := String

/-- Multiclass labels.  The constructor default `default=None` makes the
initial class set `{None}`, so labels are `Option String` with `none`
playing the role of Python `None`. -/
abbrev Label := Option String

/-- A Python value passed as the gold label `y` to the *binary*
perceptrons.  The code only distinguishes `y is False`, `y is True`, and
everything else, so three constructors suffice. -/
inductive BLabel where
  | btrue : BLabel
  | bfalse : BLabel
  | bother : BLabel
  deriving Repr, DecidableEq

/-- Python `y != yhat` where `yhat` is a `bool`: only `True`/`False`
compare equal to a bool; any other value is unequal. -/
def BLabel.eqBool : BLabel → Bool → Bool
  | BLabel.btrue, b => b
  | BLabel.bfalse, b => !b
  | BLabel.bother, _ => false

/-! ### Association-list primitives (Python `dict` semantics)

Python dicts preserve insertion order; `d[k] = v` on a present key
updates in place, on an absent key appends.  `defaultdict` reads
materialise `default()` entries.  `alistMem`/`alistGetD` are lookups;
`alistUpd` is `d[k] = f(d[k])` on a `defaultdict` with default `d₀`. -/

def alistMem [DecidableEq κ] (l : List (κ × α)) (k : κ) : Bool :=
  l.any (fun p => p.1 = k)

def alistGetD [DecidableEq κ] (l : List (κ × α)) (k : κ) (d : α) : α :=
  match l.find? (fun p => p.1 = k) with
  | some p => p.2
  | none => d

/-- `d[k] = f(d[k])` on a `defaultdict` whose default value is `d₀`:
update in place when present, append `(k, f d₀)` when absent. -/
def alistUpd [DecidableEq κ] (l : List (κ × α)) (k : κ) (d₀ : α)
    (f : α → α) : List (κ × α) :=
  if alistMem l k then
    l.map (fun p => if p.1 = k then (p.1, f p.2) else p)
  else
    l ++ [(k, f d₀)]

/-! ### `LazyWeight` (perceptron.py lines 356–430)

A triple of the current weight, the running (time-integrated) sum, and
the timestamp of the last fold.  `timestamp` is an `ℕ` because the
models' logical clock starts at 0 and only increments; the subtraction
`t - timestamp` in `_freshen` is computed in `ℚ` after casting, exactly
as Python computes it on unbounded ints. -/
structure LazyWeight where
  timestamp : ℕ
  weight : ℚ
  summed_weight : ℚ
  deriving Repr, DecidableEq

namespace LazyWeight

/-- `LazyWeight.__init__(default_factory=int, t=0)`: all fields zero. -/
def init : LazyWeight := ⟨0, 0, 0⟩

/-- `LazyWeight.get`: return the current weight. -/
def get (lw : LazyWeight) : ℚ := lw.weight

/-- `LazyWeight._freshen(t)`:
`summed_weight += (t - timestamp) * weight; timestamp = t`. -/
def freshen (lw : LazyWeight) (t : ℕ) : LazyWeight :=
  { lw with
    summed_weight := lw.summed_weight + ((t : ℚ) - (lw.timestamp : ℚ)) * lw.weight
    timestamp := t }

/-- `LazyWeight.update(value, t)`: freshen, then `weight += value`. -/
def update (lw : LazyWeight) (value : ℚ) (t : ℕ) : LazyWeight :=
  let f := lw.freshen t
  { f with weight := f.weight + value }

/-- `LazyWeight.average(t)`: freshen, then `weight = summed_weight / t`.
Python performs true division; callers guarantee `t > 0` (`ℚ` division
by zero is never relied upon below). -/
def average (lw : LazyWeight) (t : ℕ) : LazyWeight :=
  let f := lw.freshen t
  { f with weight := f.summed_weight / (t : ℚ) }

/-- Apply a list of `(value, t)` update calls in order to a fresh
`LazyWeight`. -/
def applyUpdates (us : List (ℚ × ℕ)) : LazyWeight :=
  us.foldl (fun lw p => lw.update p.1 p.2) init

end LazyWeight

/-! ### The naive per-tick trajectory simulator (spec §8)

Modelled from the spec's words for the refinement claim: "the value a
naive simulator computes by recording the current weight at each of the
T integer ticks and dividing the total by T".  The current weight at
integer tick `k` is the sum of all deltas whose update time is `≤ k`
(an update at time `t` takes effect at tick `t`, matching the doctest in
the `LazyWeight` docstring). -/
def tickWeight (us : List (ℚ × ℕ)) (k : ℕ) : ℚ :=
  ((us.filter (fun p => p.2 ≤ k)).map Prod.fst).sum

/-- The naive simulator's time-integrated mean over ticks `0, …, T-1`. -/
def naiveAverage (us : List (ℚ × ℕ)) (T : ℕ) : ℚ :=
  (∑ k ∈ Finset.range T, tickWeight us k) / (T : ℚ)

/-! ### `BinaryPerceptron` (perceptron.py lines 83–126)

`self.weights` is a `defaultdict(int)`; since the only reads are sums
(where a materialised zero entry contributes nothing) and the broken
`finalize` never reaches the store, we model the store as a total
function with default value 0.  The seeded `Random` collaborator is
external (spec §1) and is threaded explicitly where needed. -/
structure BinaryPerceptron where
  weights : Feature → ℤ

namespace BinaryPerceptron

/-- Fresh model: `defaultdict(int)`, every weight 0. -/
def initModel : BinaryPerceptron := ⟨fun _ => 0⟩

/-- `BinaryPerceptron.score(x)`: sum of the weights of the features. -/
def score (m : BinaryPerceptron) (x : List Feature) : ℤ :=
  (x.map m.weights).sum

/-- `BinaryPerceptron.predict(x)`: `score(x) >= 0`. -/
def predict (m : BinaryPerceptron) (x : List Feature) : Bool :=
  decide (0 ≤ m.score x)

/-- The `for feature in x: self.weights[feature] += tau` loop. -/
def applyTau (w : Feature → ℤ) (tau : ℤ) : List Feature → (Feature → ℤ)
  | [] => w
  | f :: fs => applyTau (fun g => if g = f then w g + tau else w g) tau fs

/-- `BinaryPerceptron.update(x, y, tau=1)`: negate `tau` when
`y is False` (any other value of `y`, boolean or not, leaves `tau`
positive — there is no validity check here), then add `tau` to every
feature's weight. -/
def update (m : BinaryPerceptron) (x : List Feature) (y : BLabel)
    (tau : ℤ) : BinaryPerceptron :=
  ⟨applyTau m.weights (if y = BLabel.bfalse then -tau else tau) x⟩

/-- `BinaryPerceptron.fit_one(x, y)`: predict, update on a mistake,
return the prediction. -/
def fitOne (m : BinaryPerceptron) (x : List Feature) (y : BLabel) :
    BinaryPerceptron × Bool :=
  let yhat := m.predict x
  (if BLabel.eqBool y yhat then m else m.update x y 1, yhat)

/-- `BinaryPerceptron.finalize()`: the comprehension
`{feature: weight for feature in weight if weight != 0}` iterates over
the name `weight`, which is unbound at that point, so every call raises
`NameError` before touching the store. -/
def finalize (_m : BinaryPerceptron) : Except PyErr BinaryPerceptron :=
  Except.error PyErr.nameError

end BinaryPerceptron

/-! ### `Perceptron` (multiclass, perceptron.py lines 128–204)

`self.classes` is a Python `set`; its iteration order is an
implementation accident (spec §9 flags the tie-break as accidental), so
we model it as the insertion-ordered duplicate-free list.
`self.weights` is a `defaultdict` of `defaultdict(int)`, modelled as a
nested insertion-ordered association list so that entry materialisation
(`feature_ptr[y] += tau` creating a zero-valued entry) and the
`KeyError` raised by `scores` on an unregistered class are both
observable. -/
structure Perceptron where
  classes : List Label
  weights : List (Feature × List (Label × ℤ))

namespace Perceptron

/-- `Perceptron.__init__(default=None)`: `classes = {default}`, empty
weight store. -/
def initModel : Perceptron := ⟨[none], []⟩

/-- `self.classes.add(y)`. -/
def addClass (classes : List Label) (y : Label) : List Label :=
  if classes.contains y then classes else classes ++ [y]

/-- `scores[cls] += weight`: Python raises `KeyError` when `cls` is not
among the keys of `scores` (which `Perceptron.scores` seeds with the
registered classes only). -/
def scoresBump (scores : List (Label × ℤ)) (cls : Label) (w : ℤ) :
    Except PyErr (List (Label × ℤ)) :=
  if alistMem scores cls then
    Except.ok (scores.map (fun p => if p.1 = cls then (p.1, p.2 + w) else p))
  else
    Except.error PyErr.keyError

/-- The inner loop of `Perceptron.scores`:
`for (cls, weight) in self.weights[feature].items(): scores[cls] += weight`. -/
def scoresAddEntry (scores : List (Label × ℤ)) :
    List (Label × ℤ) → Except PyErr (List (Label × ℤ))
  | [] => Except.ok scores
  | (cls, w) :: rest =>
      match scoresBump scores cls w with
      | Except.error e => Except.error e
      | Except.ok s => scoresAddEntry s rest

/-- The outer loop of `Perceptron.scores` over the features of `x`.
Reading `self.weights[feature]` on the `defaultdict` materialises an
empty inner dict for absent features; that adds no `(cls, weight)` pair,
so the pure default-`[]` read is score-equivalent. -/
def scoresLoop (m : Perceptron) (scores : List (Label × ℤ)) :
    List Feature → Except PyErr (List (Label × ℤ))
  | [] => Except.ok scores
  | f :: fs =>
      match scoresAddEntry scores (alistGetD m.weights f []) with
      | Except.error e => Except.error e
      | Except.ok s => scoresLoop m s fs

/-- `Perceptron.scores(x)`: seed `dict.fromkeys(self.classes, 0)`, then
accumulate every stored weight of every feature of `x`. -/
def scores (m : Perceptron) (x : List Feature) :
    Except PyErr (List (Label × ℤ)) :=
  scoresLoop m (m.classes.map (fun c => (c, 0))) x

/-- `max(scores.items(), key=itemgetter(1))`: the first item with the
maximal value in iteration order (`max` replaces the running best only
on a strictly greater key); raises `ValueError` on an empty dict. -/
def argmaxFirst {β : Type} [LinearOrder β] :
    List (Label × β) → Except PyErr (Label × β)
  | [] => Except.error PyErr.valueError
  | p :: rest =>
      Except.ok (rest.foldl (fun best q => if best.2 < q.2 then q else best) p)

/-- `Perceptron.predict(x)`: argmax of `scores(x)`. -/
def predict (m : Perceptron) (x : List Feature) : Except PyErr Label :=
  match m.scores x with
  | Except.error e => Except.error e
  | Except.ok s =>
      match argmaxFirst s with
      | Except.error e => Except.error e
      | Except.ok p => Except.ok p.1

/-- The body of `Perceptron.update` for one feature:
`feature_ptr[y] += tau; feature_ptr[yhat] -= tau` on the inner
`defaultdict(int)`. -/
def updateEntry (entry : List (Label × ℤ)) (y yhat : Label) (tau : ℤ) :
    List (Label × ℤ) :=
  alistUpd (alistUpd entry y 0 (fun v => v + tau)) yhat 0 (fun v => v - tau)

/-- The `for feature in x` loop of `Perceptron.update`; reading
`self.weights[feature]` materialises the inner dict for absent
features. -/
def updateLoop (w : List (Feature × List (Label × ℤ))) (y yhat : Label)
    (tau : ℤ) : List Feature → List (Feature × List (Label × ℤ))
  | [] => w
  | f :: fs => updateLoop (alistUpd w f [] (fun e => updateEntry e y yhat tau)) y yhat tau fs

/-- `Perceptron.update(x, y, yhat, tau=1)`. -/
def update (m : Perceptron) (x : List Feature) (y yhat : Label)
    (tau : ℤ) : Perceptron :=
  { m with weights := updateLoop m.weights y yhat tau x }

/-- `Perceptron.fit_one(x, y)`: register `y`, predict, update on a
mistake, hand back the prediction. -/
def fitOne (m : Perceptron) (x : List Feature) (y : Label) :
    Except PyErr (Perceptron × Label) :=
  let m := { m with classes := addClass m.classes y }
  match m.predict x with
  | Except.error e => Except.error e
  | Except.ok yhat =>
      Except.ok (if y = yhat then m else m.update x y yhat 1, yhat)

/-- `Perceptron.finalize()`: rebuild the store keeping, per feature,
only the classes with a non-zero weight (this comprehension is correct,
unlike the binary one). -/
def finalize (m : Perceptron) : Perceptron :=
  { m with weights := m.weights.map (fun p => (p.1, p.2.filter (fun q => q.2 != 0))) }

end Perceptron

/-! ### `BinaryAveragedPerceptron` (perceptron.py lines 432–476) -/
structure BinaryAveragedPerceptron where
  weights : List (Feature × LazyWeight)
  time : ℕ

namespace BinaryAveragedPerceptron

/-- `BinaryAveragedPerceptron.__init__`: empty store, `time = 0`. -/
def initModel : BinaryAveragedPerceptron := ⟨[], 0⟩

/-- `BinaryAveragedPerceptron.predict(x)`:
`sum(self.weights[feature].get() for feature in x) >= 0`.  The
`defaultdict` read materialises `LazyWeight()` entries whose `get()` is
0, so the pure default read is score-equivalent. -/
def predict (m : BinaryAveragedPerceptron) (x : List Feature) : Bool :=
  decide (0 ≤ (x.map (fun f => (alistGetD m.weights f LazyWeight.init).get)).sum)

/-- The `for feature in x: self.weights[feature].update(tau, self.time)`
loop. -/
def applyTau (w : List (Feature × LazyWeight)) (tau : ℚ) (t : ℕ) :
    List Feature → List (Feature × LazyWeight)
  | [] => w
  | f :: fs => applyTau (alistUpd w f LazyWeight.init (fun lw => lw.update tau t)) tau t fs

/-- `BinaryAveragedPerceptron.update(x, y, tau=1)`: negate `tau` when
`y is False`, raise `ValueError("y is not boolean")` when `y` is neither
`False` nor `True` — the check precedes the update loop, so on the error
path the model is returned unchanged. -/
def update (m : BinaryAveragedPerceptron) (x : List Feature) (y : BLabel)
    (tau : ℚ) : Option PyErr × BinaryAveragedPerceptron :=
  match y with
  | BLabel.bfalse => (none, { m with weights := applyTau m.weights (-tau) m.time x })
  | BLabel.btrue => (none, { m with weights := applyTau m.weights tau m.time x })
  | BLabel.bother => (some PyErr.valueError, m)

/-- `BinaryAveragedPerceptron.fit_one(x, y)`: the inherited
`BinaryPerceptron.fit_one` body (predict, update on a mistake) followed
by `self.time += 1`; an exception from `update` propagates before the
clock tick. -/
def fitOne (m : BinaryAveragedPerceptron) (x : List Feature) (y : BLabel) :
    Except PyErr (BinaryAveragedPerceptron × Bool) :=
  let yhat := m.predict x
  if BLabel.eqBool y yhat then
    Except.ok ({ m with time := m.time + 1 }, yhat)
  else
    match m.update x y 1 with
    | (some e, _) => Except.error e
    | (none, m') => Except.ok ({ m' with time := m'.time + 1 }, yhat)

/-- `BinaryAveragedPerceptron.finalize()`: the guard `weight == 0.`
compares a `LazyWeight` *instance* with a float; `LazyWeight` defines no
`__eq__`, so the comparison is always `False`, `ready2die` stays empty,
nothing is deleted, and every entry is averaged at the current time. -/
def finalize (m : BinaryAveragedPerceptron) : BinaryAveragedPerceptron :=
  { m with weights := m.weights.map (fun p => (p.1, p.2.average m.time)) }

end BinaryAveragedPerceptron

/-! ### `AveragedPerceptron` (multiclass, perceptron.py lines 479–541) -/
structure AveragedPerceptron where
  classes : List Label
  weights : List (Feature × List (Label × LazyWeight))
  time : ℕ

namespace AveragedPerceptron

/-- `AveragedPerceptron.__init__(default=None)`. -/
def initModel : AveragedPerceptron := ⟨[none], [], 0⟩

/-- `scores[cls] += weight.get()` — `KeyError` on an unregistered
class, as in the plain variant. -/
def scoresBump (scores : List (Label × ℚ)) (cls : Label) (w : ℚ) :
    Except PyErr (List (Label × ℚ)) :=
  if alistMem scores cls then
    Except.ok (scores.map (fun p => if p.1 = cls then (p.1, p.2 + w) else p))
  else
    Except.error PyErr.keyError

/-- Inner loop of `AveragedPerceptron.scores` over one feature's
`(cls, weight)` items, reading `weight.get()`. -/
def scoresAddEntry (scores : List (Label × ℚ)) :
    List (Label × LazyWeight) → Except PyErr (List (Label × ℚ))
  | [] => Except.ok scores
  | (cls, lw) :: rest =>
      match scoresBump scores cls lw.get with
      | Except.error e => Except.error e
      | Except.ok s => scoresAddEntry s rest

/-- Outer loop of `AveragedPerceptron.scores` over the features. -/
def scoresLoop (m : AveragedPerceptron) (scores : List (Label × ℚ)) :
    List Feature → Except PyErr (List (Label × ℚ))
  | [] => Except.ok scores
  | f :: fs =>
      match scoresAddEntry scores (alistGetD m.weights f []) with
      | Except.error e => Except.error e
      | Except.ok s => scoresLoop m s fs

/-- `AveragedPerceptron.scores(x)`. -/
def scores (m : AveragedPerceptron) (x : List Feature) :
    Except PyErr (List (Label × ℚ)) :=
  scoresLoop m (m.classes.map (fun c => (c, 0))) x

/-- `Perceptron.predict` as inherited by `AveragedPerceptron` (argmax of
the averaged scores). -/
def predict (m : AveragedPerceptron) (x : List Feature) : Except PyErr Label :=
  match m.scores x with
  | Except.error e => Except.error e
  | Except.ok s =>
      match Perceptron.argmaxFirst s with
      | Except.error e => Except.error e
      | Except.ok p => Except.ok p.1

/-- One feature's update:
`feature_ptr[y].update(+tau, self.time); feature_ptr[yhat].update(-tau, self.time)`
on the inner `defaultdict(LazyWeight)`. -/
def updateEntry (entry : List (Label × LazyWeight)) (y yhat : Label)
    (tau : ℚ) (t : ℕ) : List (Label × LazyWeight) :=
  alistUpd (alistUpd entry y LazyWeight.init (fun lw => lw.update tau t))
    yhat LazyWeight.init (fun lw => lw.update (-tau) t)

/-- The `for feature in x` loop of `AveragedPerceptron.update`. -/
def updateLoop (w : List (Feature × List (Label × LazyWeight)))
    (y yhat : Label) (tau : ℚ) (t : ℕ) :
    List Feature → List (Feature × List (Label × LazyWeight))
  | [] => w
  | f :: fs => updateLoop (alistUpd w f [] (fun e => updateEntry e y yhat tau t)) y yhat tau t fs

/-- `AveragedPerceptron.update(x, y, yhat, tau=1)`. -/
def update (m : AveragedPerceptron) (x : List Feature) (y yhat : Label)
    (tau : ℚ) : AveragedPerceptron :=
  { m with weights := updateLoop m.weights y yhat tau m.time x }

/-- `AveragedPerceptron.fit_one(x, y)`: the inherited
`Perceptron.fit_one` body, then `self.time += 1`. -/
def fitOne (m : AveragedPerceptron) (x : List Feature) (y : Label) :
    Except PyErr (AveragedPerceptron × Label) :=
  let m := { m with classes := Perceptron.addClass m.classes y }
  match m.predict x with
  | Except.error e => Except.error e
  | Except.ok yhat =>
      let m' := if y = yhat then m else m.update x y yhat 1
      Except.ok ({ m' with time := m'.time + 1 }, yhat)

/-- `AveragedPerceptron.finalize()`: as in the binary averaged variant,
`weight == 0.` compares a `LazyWeight` instance with a float and is
always `False`, so `ready2die` stays empty and *every* entry — zero
weights included — survives and is averaged at the current time. -/
def finalize (m : AveragedPerceptron) : AveragedPerceptron :=
  { m with weights := m.weights.map (fun p =>
      (p.1, p.2.map (fun q => (q.1, q.2.average m.time)))) }

end AveragedPerceptron

/-! ### `SequencePerceptron` (perceptron.py lines 209–353)

Configuration (`tfeats_fnc`, `order`) is passed explicitly.  `order` is
a natural number; the Python guard `self.order <= 0` becomes
`order = 0`. -/
namespace SequencePerceptron

/-- `SequencePerceptron._markov0_predict(xx)`: per-token argmax of
`scores(x)`, independently for each token. -/
def markov0Predict (m : Perceptron) :
    List (List Feature) → Except PyErr (List Label)
  | [] => Except.ok []
  | x :: xs =>
      match m.predict x with
      | Except.error e => Except.error e
      | Except.ok yhat =>
          match markov0Predict m xs with
          | Except.error e => Except.error e
          | Except.ok rest => Except.ok (yhat :: rest)

/-- `SequencePerceptron._greedy_predict(xx)`: the loop body evaluates
`x + self.tfeats_fnc(sequence[-self.order:])`, and the name `sequence`
is unbound in that scope, so the first iteration raises `NameError`;
only the empty sequence returns (with empty results). -/
def greedyPredict (_tfeats_fnc : List Label → List Feature) (_order : ℕ)
    (_m : Perceptron) (xx : List (List Feature)) :
    Except PyErr (List (List Feature) × List Label) :=
  match xx with
  | [] => Except.ok ([], [])
  | _ :: _ => Except.error PyErr.nameError

/-- `SequencePerceptron.predict(xx)`: order-0 models decode each token
independently; positive orders go through the greedy decoder (the exact
Viterbi path is commented out in the source). -/
def predict (tfeats_fnc : List Label → List Feature) (order : ℕ)
    (m : Perceptron) (xx : List (List Feature)) : Except PyErr (List Label) :=
  if order = 0 then
    markov0Predict m xx
  else
    match greedyPredict tfeats_fnc order m xx with
    | Except.error e => Except.error e
    | Except.ok p => Except.ok p.2

end SequencePerceptron

/-! ### `SequenceAveragedPerceptron` (perceptron.py lines 544–549)

Method resolution order: `fit_one` is `AveragedPerceptron.fit_one`,
whose `super()` call lands on `SequencePerceptron.fit_one`, which
decodes with `predict_with_transitions` and applies
`AveragedPerceptron.update` per mistaken position; then the clock ticks
once for the whole sequence.  For `order > 0`,
`predict_with_transitions` calls `self._greedy_predict_with_transitions`,
a method that does not exist anywhere in the hierarchy, so it raises
`AttributeError` (before `tfeats_fnc` is ever consulted, which is why
the transition-feature function is not a parameter here). -/
namespace SequenceAveragedPerceptron

/-- `_markov0_predict` over the averaged scores. -/
def markov0Predict (m : AveragedPerceptron) :
    List (List Feature) → Except PyErr (List Label)
  | [] => Except.ok []
  | x :: xs =>
      match m.predict x with
      | Except.error e => Except.error e
      | Except.ok yhat =>
          match markov0Predict m xs with
          | Except.error e => Except.error e
          | Except.ok rest => Except.ok (yhat :: rest)

/-- `SequencePerceptron.predict_with_transitions(xx)` with averaged
scores: order 0 returns `(xx, markov0(xx))`; any positive order raises
`AttributeError` on the missing `_greedy_predict_with_transitions`. -/
def predictWithTransitions (order : ℕ) (m : AveragedPerceptron)
    (xx : List (List Feature)) :
    Except PyErr (List (List Feature) × List Label) :=
  if order = 0 then
    match markov0Predict m xx with
    | Except.error e => Except.error e
    | Except.ok yyhat => Except.ok (xx, yyhat)
  else
    Except.error PyErr.attributeError

/-- `self.classes.update(yy)`. -/
def addClasses (classes : List Label) (yy : List Label) : List Label :=
  yy.foldl Perceptron.addClass classes

/-- The per-position update loop of `SequencePerceptron.fit_one`:
`for (xt, y, yhat) in zip(xxt, yy, yyhat): if y != yhat: update(xt, y, yhat)`
(dispatching to `AveragedPerceptron.update`). -/
def seqUpdate (m : AveragedPerceptron) :
    List (List Feature × Label × Label) → AveragedPerceptron
  | [] => m
  | (xt, y, yhat) :: rest =>
      seqUpdate (if y = yhat then m else m.update xt y yhat 1) rest

/-- `fit_one(xx, yy)` of the sequence averaged variant: register the
gold labels, decode, update each mistaken position, then
`self.time += 1` (once per whole sequence). -/
def fitOne (order : ℕ) (m : AveragedPerceptron) (xx : List (List Feature))
    (yy : List Label) : Except PyErr (AveragedPerceptron × List Label) :=
  let m := { m with classes := addClasses m.classes yy }
  match predictWithTransitions order m xx with
  | Except.error e => Except.error e
  | Except.ok (xxt, yyhat) =>
      let m' := seqUpdate m ((xxt.zip (yy.zip yyhat)).map (fun p => (p.1, p.2)))
      Except.ok ({ m' with time := m'.time + 1 }, yyhat)

end SequenceAveragedPerceptron

/-! ### `Classifier.fit` (perceptron.py lines 59–74)

The epoch loop: copy the zipped data once, then per epoch shuffle the
*same* list in place and call `fit_one` on every instance; after all
epochs, call `finalize` once.  The accuracy/logging collaborators are
out of scope (spec §1).  The pseudo-random shuffle is external; it is
modelled as an explicit function from a generator state and a list to a
new state and a permuted list, threaded exactly as `self.random` is. -/

/-- The inner `for (x, y) in data` loop: run `fit_one` over the list,
stopping at the first exception. -/
def runData {M I O : Type} (fitOne : M → I → Except PyErr (M × O)) :
    M → List I → Except PyErr M
  | m, [] => Except.ok m
  | m, i :: is =>
      match fitOne m i with
      | Except.error e => Except.error e
      | Except.ok (m', _) => runData fitOne m' is

/-- The epoch loop of `Classifier.fit`: each epoch shuffles the data
list left by the previous epoch and folds `fit_one` over it. -/
def runEpochs {M I O RS : Type} (shuffle : RS → List I → RS × List I)
    (fitOne : M → I → Except PyErr (M × O)) :
    M → RS → List I → ℕ → Except PyErr (M × RS)
  | m, r, _, 0 => Except.ok (m, r)
  | m, r, data, n + 1 =>
      let s := shuffle r data
      match runData fitOne m s.2 with
      | Except.error e => Except.error e
      | Except.ok m' => runEpochs shuffle fitOne m' s.1 s.2 n

/-- `Classifier.fit(X, Y, epochs)` for `AveragedPerceptron`: zip the
data, run the epochs, then `finalize` once. -/
def AveragedPerceptron.fit {RS : Type}
    (shuffle : RS → List (List Feature × Label) → RS × List (List Feature × Label))
    (m : AveragedPerceptron) (r : RS) (X : List (List Feature))
    (Y : List Label) (epochs : ℕ) : Except PyErr (AveragedPerceptron × RS) :=
  match runEpochs shuffle (fun m p => AveragedPerceptron.fitOne m p.1 p.2) m r (X.zip Y) epochs with
  | Except.error e => Except.error e
  | Except.ok (m', r') => Except.ok (AveragedPerceptron.finalize m', r')

/-! ## Claim theorems -/

/-- C3: every `LazyWeight.update(delta, t)` call first folds the elapsed
time into the running sum — `summed_weight` increases by
`(t − timestamp) × weight` and `timestamp` becomes `t` — and only
afterwards adds `delta` to the current weight; the net effect of one
call is exactly one such fold. -/
theorem lazyWeight_update_one_fold (lw : LazyWeight) (delta : ℚ) (t : ℕ) :
    (lw.update delta t).summed_weight
        = lw.summed_weight + ((t : ℚ) - (lw.timestamp : ℚ)) * lw.weight
      ∧ (lw.update delta t).timestamp = t
      ∧ (lw.update delta t).weight = lw.weight + delta :=
  ⟨rfl, rfl, rfl⟩

/-- C1 (code bug): `finalize` does not establish the claimed
postcondition.  (1) `BinaryPerceptron.finalize` raises `NameError`
unconditionally (the comprehension iterates the unbound name `weight`).
(2) In the multiclass averaged variant, a feature updated `+1` and `-1`
towards the same class at time 0 leaves a `LazyWeight` that `finalize`
at time 2 averages to exactly 0 and keeps — the guard `weight == 0.`
compares a `LazyWeight` object to a float and never fires, so no entry
is ever pruned.  (3) The same holds for the binary averaged variant
after updates `+1` then `-1` on one feature. -/
theorem finalize_violates_postcondition :
    BinaryPerceptron.finalize BinaryPerceptron.initModel
        = Except.error PyErr.nameError
      ∧ (AveragedPerceptron.finalize
          { AveragedPerceptron.update AveragedPerceptron.initModel
              ["f1"] (some "N") (some "N") 1 with time := 2 }).weights
        = [("f1", [(some "N", ⟨2, 0, 0⟩)])]
      ∧ (BinaryAveragedPerceptron.finalize
          { (BinaryAveragedPerceptron.update
              (BinaryAveragedPerceptron.update BinaryAveragedPerceptron.initModel
                ["f1"] BLabel.btrue 1).2
              ["f1"] BLabel.bfalse 1).2 with time := 2 }).weights
        = [("f1", ⟨2, 0, 0⟩)] := by
  refine ⟨rfl, ?_, ?_⟩ <;>
    simp [AveragedPerceptron.finalize, AveragedPerceptron.update,
      AveragedPerceptron.updateLoop, AveragedPerceptron.updateEntry,
      AveragedPerceptron.initModel, BinaryAveragedPerceptron.finalize,
      BinaryAveragedPerceptron.update, BinaryAveragedPerceptron.applyTau,
      BinaryAveragedPerceptron.initModel, alistUpd, alistMem,
      LazyWeight.update, LazyWeight.freshen, LazyWeight.average,
      LazyWeight.init, LazyWeight.get]

/-- C4 (code bug): greedy sequence decoding (`order = 1`) raises
`NameError` on every non-empty token sequence — the loop body reads the
unbound name `sequence` — whereas order-0 decoding of the same tokens
succeeds, so the two decoders do not agree even when the transition
function returns the empty feature set for every window. -/
theorem greedy_predict_raises_on_nonempty :
    SequencePerceptron.greedyPredict (fun _ => []) 1 Perceptron.initModel [["f1"]]
        = Except.error PyErr.nameError
      ∧ SequencePerceptron.predict (fun _ => []) 1 Perceptron.initModel [["f1"]]
        = Except.error PyErr.nameError
      ∧ SequencePerceptron.markov0Predict Perceptron.initModel [["f1"]]
        = Except.ok [none] :=
  ⟨rfl, rfl, rfl⟩

/-- C5 (counterexample): the *plain* binary `update` performs no label
check: with the non-boolean gold label it silently mutates the store
(the feature's weight becomes 1) instead of failing. -/
theorem binary_update_accepts_nonboolean :
    (BinaryPerceptron.update BinaryPerceptron.initModel ["a"] BLabel.bother 1).weights "a" = 1 :=
  rfl

/-- C5 (amended): only the binary *averaged* variant rejects a gold
label outside `{True, False}` — with `ValueError`, raised before the
update loop, so the model is unchanged on the error path; the plain
binary variant performs no check and treats any label other than
`False` exactly like `True`. -/
theorem binary_averaged_update_rejects_nonboolean
    (m : BinaryAveragedPerceptron) (x : List Feature) (tau : ℚ)
    (w : BinaryPerceptron) (x' : List Feature) (tau' : ℤ) :
    BinaryAveragedPerceptron.update m x BLabel.bother tau
        = (some PyErr.valueError, m)
      ∧ BinaryPerceptron.update w x' BLabel.bother tau'
        = BinaryPerceptron.update w x' BLabel.btrue tau' :=
  ⟨rfl, rfl⟩

/-- C6 (counterexample): on a *fresh* multiclass model (whose class set
is only `{None}`), a bare `update(x, "N", "V")` stores weights for the
unregistered classes, and the subsequent `scores(x)` raises `KeyError`
instead of returning `{"N": 1, "V": −1}`. -/
theorem scores_after_bare_update_raises :
    Perceptron.scores
        (Perceptron.update Perceptron.initModel ["f1"] (some "N") (some "V") 1) ["f1"]
      = Except.error PyErr.keyError :=
  rfl

/-- C6 (amended): once the classes `"N"` and `"V"` are registered,
a single `update({"f1"}, "N", "V")` makes `scores({"f1"})` map `"N"` to
1 and `"V"` to −1, alongside the constructor's default class (Python
`None`) at its untouched score 0, and nothing else. -/
theorem scores_after_registered_update :
    Perceptron.scores
        (Perceptron.update
          { Perceptron.initModel with
              classes := Perceptron.addClass
                (Perceptron.addClass Perceptron.initModel.classes (some "N")) (some "V") }
          ["f1"] (some "N") (some "V") 1) ["f1"]
      = Except.ok [(none, 0), (some "N", 1), (some "V", -1)] :=
  rfl

/-- C8: training is deterministic — two runs of `fit` from fresh models
built with the same seed, on the same data in the same initial order,
for the same number of epochs, through the same (deterministic, seeded)
shuffle collaborator, produce identical final models. -/
theorem fit_deterministic {RS : Type}
    (shuffle : RS → List (List Feature × Label) → RS × List (List Feature × Label))
    (initRandom : ℕ → RS) (s₁ s₂ : ℕ)
    (X₁ X₂ : List (List Feature)) (Y₁ Y₂ : List Label) (e₁ e₂ : ℕ)
    (hs : s₁ = s₂) (hX : X₁ = X₂) (hY : Y₁ = Y₂) (he : e₁ = e₂) :
    AveragedPerceptron.fit shuffle AveragedPerceptron.initModel (initRandom s₁) X₁ Y₁ e₁
      = AveragedPerceptron.fit shuffle AveragedPerceptron.initModel (initRandom s₂) X₂ Y₂ e₂ := by
  subst hs hX hY he
  rfl

/-- Witness for C8 at a concrete seed, dataset and epoch count. -/
theorem fit_deterministic_witness :
    AveragedPerceptron.fit (fun (r : Unit) d => (r, d)) AveragedPerceptron.initModel
        ((fun (_ : ℕ) => ()) 7) [["f1"]] [some "N"] 1
      = AveragedPerceptron.fit (fun (r : Unit) d => (r, d)) AveragedPerceptron.initModel
        ((fun (_ : ℕ) => ()) 7) [["f1"]] [some "N"] 1 :=
  fit_deterministic (fun (r : Unit) d => (r, d)) (fun (_ : ℕ) => ()) 7 7
    [["f1"]] [["f1"]] [some "N"] [some "N"] 1 1 rfl rfl rfl rfl

/-! Helper lemmas about the binary update loop (used by the C7 claim). -/

theorem applyTau_not_mem (w : Feature → ℤ) (tau : ℤ) (fs : List Feature)
    (g : Feature) (hg : g ∉ fs) :
    BinaryPerceptron.applyTau w tau fs g = w g := by
  induction fs generalizing w with
  | nil => rfl
  | cons f fs ih =>
      have hgf : g ≠ f := fun h => hg (h ▸ List.mem_cons_self f fs)
      have hgfs : g ∉ fs := fun h => hg (List.mem_cons_of_mem f h)
      rw [BinaryPerceptron.applyTau, ih _ hgfs]
      simp [hgf]

theorem applyTau_score_sum (w : Feature → ℤ) (tau : ℤ) (x : List Feature)
    (hx : x.Nodup) :
    (x.map (BinaryPerceptron.applyTau w tau x)).sum
      = (x.map w).sum + (x.length : ℤ) * tau := by
  induction x generalizing w with
  | nil => simp
  | cons f fs ih =>
      obtain ⟨hf, hfs⟩ := List.nodup_cons.mp hx
      rw [BinaryPerceptron.applyTau]
      have hmapeq :
          fs.map (fun g => if g = f then w g + tau else w g) = fs.map w := by
        refine List.map_congr_left (fun g hg => ?_)
        have : g ≠ f := fun h => hf (h ▸ hg)
        simp [this]
      calc ((f :: fs).map
              (BinaryPerceptron.applyTau (fun g => if g = f then w g + tau else w g) tau fs)).sum
          = BinaryPerceptron.applyTau (fun g => if g = f then w g + tau else w g) tau fs f
              + (fs.map (BinaryPerceptron.applyTau (fun g => if g = f then w g + tau else w g) tau fs)).sum := by
            simp
        _ = (w f + tau) + ((fs.map w).sum + (fs.length : ℤ) * tau) := by
            rw [applyTau_not_mem _ _ _ _ hf, ih _ hfs, hmapeq]
            simp
        _ = ((f :: fs).map w).sum + ((f :: fs).length : ℤ) * tau := by
            simp
            ring

/-- C7: one `update(x, y)` on a fresh binary model changes `score(x)` by
exactly `|x|` when `y` is `True` and by exactly `−|x|` when `y` is
`False`, for any duplicate-free feature set `x`. -/
theorem binary_update_changes_score_by_size (x : List Feature) (y : Bool)
    (hx : x.Nodup) :
    BinaryPerceptron.score
        (BinaryPerceptron.update BinaryPerceptron.initModel x
          (if y then BLabel.btrue else BLabel.bfalse) 1) x
      - BinaryPerceptron.score BinaryPerceptron.initModel x
      = (x.length : ℤ) * (if y then 1 else -1) := by
  have h0 : BinaryPerceptron.score BinaryPerceptron.initModel x = 0 := by
    simp [BinaryPerceptron.score, BinaryPerceptron.initModel]
  cases y <;>
    simp [BinaryPerceptron.update, BinaryPerceptron.score, h0,
      BinaryPerceptron.initModel, applyTau_score_sum _ _ x hx]

/-- Witness for C7 at `x = {"a", "b"}`, `y = True`. -/
theorem binary_update_changes_score_by_size_witness :
    BinaryPerceptron.score
        (BinaryPerceptron.update BinaryPerceptron.initModel ["a", "b"]
          (if true then BLabel.btrue else BLabel.bfalse) 1) ["a", "b"]
      - BinaryPerceptron.score BinaryPerceptron.initModel ["a", "b"]
      = ((["a", "b"] : List Feature).length : ℤ) * (if true then 1 else -1) :=
  binary_update_changes_score_by_size ["a", "b"] true (by decide)

/-! Helper lemmas for the `LazyWeight` refinement claim (C2). -/

theorem applyUpdates_append (us : List (ℚ × ℕ)) (p : ℚ × ℕ) :
    LazyWeight.applyUpdates (us ++ [p])
      = (LazyWeight.applyUpdates us).update p.1 p.2 := by
  simp [LazyWeight.applyUpdates, List.foldl_append]

theorem tickWeight_append (us : List (ℚ × ℕ)) (v : ℚ) (t : ℕ) (k : ℕ) :
    tickWeight (us ++ [(v, t)]) k = tickWeight us k + if t ≤ k then v else 0 := by
  simp only [tickWeight, List.filter_append, List.map_append, List.sum_append]
  by_cases h : t ≤ k <;> simp [h]

/-- One fold brings the running sum of a `LazyWeight` whose fields track
the step trajectory `w` up to its timestamp forward to any later time. -/
theorem freshen_summed_eq (s : LazyWeight) (w : ℕ → ℚ)
    (hsum : s.summed_weight = ∑ k ∈ Finset.range s.timestamp, w k)
    (hconst : ∀ k, s.timestamp ≤ k → w k = s.weight)
    (t : ℕ) (ht : s.timestamp ≤ t) :
    (s.freshen t).summed_weight = ∑ k ∈ Finset.range t, w k := by
  have h1 : ∑ k ∈ Finset.Ico s.timestamp t, w k
      = ((t - s.timestamp : ℕ) : ℚ) * s.weight := by
    rw [Finset.sum_congr rfl (fun k hk => hconst k (Finset.mem_Ico.mp hk).1)]
    simp [mul_comm]
  have h2 : ∑ k ∈ Finset.range t, w k
      = (∑ k ∈ Finset.range s.timestamp, w k) + ∑ k ∈ Finset.Ico s.timestamp t, w k := by
    rw [Finset.range_eq_Ico]
    exact (Finset.sum_Ico_consecutive w (Nat.zero_le _) ht).symm
  show s.summed_weight + ((t : ℚ) - (s.timestamp : ℚ)) * s.weight = _
  rw [h2, ← hsum, h1, Nat.cast_sub ht]

/-- Invariant of `LazyWeight` under a nondecreasing sequence of update
calls: the current weight is the sum of all deltas, the timestamp bounds
every update time, and the running sum integrates the step trajectory
`tickWeight us` over the ticks before the timestamp. -/
theorem applyUpdates_spec (us : List (ℚ × ℕ))
    (hs : (us.map Prod.snd).Sorted (· ≤ ·)) :
    (∀ p ∈ us, p.2 ≤ (LazyWeight.applyUpdates us).timestamp)
      ∧ ((LazyWeight.applyUpdates us).timestamp = 0
          ∨ (LazyWeight.applyUpdates us).timestamp ∈ us.map Prod.snd)
      ∧ (LazyWeight.applyUpdates us).weight = (us.map Prod.fst).sum
      ∧ (LazyWeight.applyUpdates us).summed_weight
          = ∑ k ∈ Finset.range (LazyWeight.applyUpdates us).timestamp, tickWeight us k
      ∧ (∀ k, (LazyWeight.applyUpdates us).timestamp ≤ k →
          tickWeight us k = (LazyWeight.applyUpdates us).weight) := by
  induction us using List.reverseRecOn with
  | nil =>
      refine ⟨by simp, Or.inl rfl, by simp [LazyWeight.applyUpdates, LazyWeight.init], ?_, ?_⟩
      · simp [LazyWeight.applyUpdates, LazyWeight.init]
      · intro k _
        simp [LazyWeight.applyUpdates, LazyWeight.init, tickWeight]
  | append_singleton us p ih =>
      obtain ⟨v, t⟩ := p
      simp only [List.map_append, List.map_cons, List.map_nil] at hs
      obtain ⟨hs1, -, hbound⟩ := List.pairwise_append.mp hs
      have hble : ∀ a ∈ us.map Prod.snd, a ≤ t := fun a ha =>
        hbound a ha t (List.mem_singleton.mpr rfl)
      obtain ⟨ih1, ih2, ih3, ih4, ih5⟩ := ih hs1
      have hts : (LazyWeight.applyUpdates us).timestamp ≤ t := by
        rcases ih2 with h | h
        · exact h ▸ Nat.zero_le t
        · exact hble _ h
      rw [applyUpdates_append]
      have htimestamp :
          ((LazyWeight.applyUpdates us).update v t).timestamp = t := rfl
      have hweight : ((LazyWeight.applyUpdates us).update v t).weight
          = (LazyWeight.applyUpdates us).weight + v := rfl
      have hsummed : ((LazyWeight.applyUpdates us).update v t).summed_weight
          = ((LazyWeight.applyUpdates us).freshen t).summed_weight := rfl
      refine ⟨?_, ?_, ?_, ?_, ?_⟩
      · intro q hq
        rw [htimestamp]
        rcases List.mem_append.mp hq with h | h
        · exact hble q.2 (List.mem_map_of_mem Prod.snd h)
        · rw [List.mem_singleton.mp h]
      · exact Or.inr (by simp [htimestamp])
      · rw [hweight, ih3]; simp
      · rw [hsummed, htimestamp,
          freshen_summed_eq _ (tickWeight us) ih4 ih5 t hts]
        refine Finset.sum_congr rfl (fun k hk => ?_)
        have hk' : ¬ t ≤ k := Nat.not_le.mpr (Finset.mem_range.mp hk)
        rw [tickWeight_append, if_neg hk', add_zero]
      · intro k hk
        rw [htimestamp] at hk
        rw [tickWeight_append, if_pos hk, hweight,
          ih5 k (le_trans hts hk)]

/-- C2: for every nondecreasing sequence of `LazyWeight.update(delta_i, t_i)`
calls on a fresh `LazyWeight` followed by `average(T)` with `T > 0` and
`T` at least every `t_i`, the resulting weight equals the
time-integrated mean that the naive per-tick simulator computes over the
ticks `0, …, T−1`. -/
theorem lazyWeight_average_refines_naive (us : List (ℚ × ℕ)) (T : ℕ)
    (hs : (us.map Prod.snd).Sorted (· ≤ ·)) (_hT : 0 < T)
    (hle : ∀ p ∈ us, p.2 ≤ T) :
    ((LazyWeight.applyUpdates us).average T).weight = naiveAverage us T := by
  obtain ⟨h1, h2, h3, h4, h5⟩ := applyUpdates_spec us hs
  have hts : (LazyWeight.applyUpdates us).timestamp ≤ T := by
    rcases h2 with h | h
    · exact h ▸ Nat.zero_le T
    · obtain ⟨q, hq, hq2⟩ := List.mem_map.mp h
      exact hq2 ▸ hle q hq
  have havg : ((LazyWeight.applyUpdates us).average T).weight
      = ((LazyWeight.applyUpdates us).freshen T).summed_weight / (T : ℚ) := rfl
  rw [havg, freshen_summed_eq _ (tickWeight us) h4 h5 T hts]
  rfl

/-- Witness for C2: one update of `+1` at time 1, averaged at `T = 2`. -/
theorem lazyWeight_average_refines_naive_witness :
    ((LazyWeight.applyUpdates [((1 : ℚ), 1)]).average 2).weight
      = naiveAverage [((1 : ℚ), 1)] 2 :=
  lazyWeight_average_refines_naive [((1 : ℚ), 1)] 2 (by simp)
    (by decide) (by simp)

/-! Helper lemmas about the logical clock (used by the C9 claim). -/

theorem AveragedPerceptron.update_time (m : AveragedPerceptron)
    (x : List Feature) (y yhat : Label) (tau : ℚ) :
    (m.update x y yhat tau).time = m.time := rfl

theorem averagedFitOneTime (m : AveragedPerceptron)
    (x : List Feature) (y : Label) (m' : AveragedPerceptron) (yhat : Label)
    (h : AveragedPerceptron.fitOne m x y = Except.ok (m', yhat)) :
    m'.time = m.time + 1 := by
  simp only [AveragedPerceptron.fitOne] at h
  split at h
  · cases h
  · simp only [Except.ok.injEq, Prod.mk.injEq] at h
    obtain ⟨hm, -⟩ := h
    rw [← hm]
    split <;> rfl

theorem binaryAveragedFitOneTime (m : BinaryAveragedPerceptron)
    (x : List Feature) (y : BLabel) (m' : BinaryAveragedPerceptron) (yhat : Bool)
    (h : BinaryAveragedPerceptron.fitOne m x y = Except.ok (m', yhat)) :
    m'.time = m.time + 1 := by
  unfold BinaryAveragedPerceptron.fitOne at h
  by_cases he : BLabel.eqBool y (BinaryAveragedPerceptron.predict m x)
  · rw [if_pos he] at h
    simp only [Except.ok.injEq, Prod.mk.injEq] at h
    rw [← h.1]
  · rw [if_neg he] at h
    cases y with
    | btrue =>
        simp only [BinaryAveragedPerceptron.update, Except.ok.injEq,
          Prod.mk.injEq] at h
        rw [← h.1]
    | bfalse =>
        simp only [BinaryAveragedPerceptron.update, Except.ok.injEq,
          Prod.mk.injEq] at h
        rw [← h.1]
    | bother =>
        simp only [BinaryAveragedPerceptron.update] at h
        cases h

theorem SequenceAveragedPerceptron.seqUpdate_time
    (l : List (List Feature × Label × Label)) (m : AveragedPerceptron) :
    (SequenceAveragedPerceptron.seqUpdate m l).time = m.time := by
  induction l generalizing m with
  | nil => rfl
  | cons p l ih =>
      obtain ⟨xt, y, yhat⟩ := p
      rw [SequenceAveragedPerceptron.seqUpdate]
      by_cases hyy : y = yhat <;>
        simp [hyy, ih, AveragedPerceptron.update]

theorem seqAveragedFitOneTime (order : ℕ)
    (m : AveragedPerceptron) (xx : List (List Feature)) (yy : List Label)
    (m' : AveragedPerceptron) (yyhat : List Label)
    (h : SequenceAveragedPerceptron.fitOne order m xx yy = Except.ok (m', yyhat)) :
    m'.time = m.time + 1 := by
  simp only [SequenceAveragedPerceptron.fitOne] at h
  split at h
  · cases h
  · simp only [Except.ok.injEq, Prod.mk.injEq] at h
    rw [← h.1]
    simp [SequenceAveragedPerceptron.seqUpdate_time]

theorem runData_time (data : List (List Feature × Label))
    (m m' : AveragedPerceptron)
    (h : runData (fun m p => AveragedPerceptron.fitOne m p.1 p.2) m data
        = Except.ok m') :
    m'.time = m.time + data.length := by
  induction data generalizing m with
  | nil =>
      rw [runData] at h
      cases h
      rfl
  | cons p data ih =>
      rw [runData] at h
      cases hp : AveragedPerceptron.fitOne m p.1 p.2 with
      | error e => rw [hp] at h; cases h
      | ok q =>
          rw [hp] at h
          have := ih q.1 h
          rw [this, averagedFitOneTime m p.1 p.2 q.1 q.2 (by rw [hp])]
          simp only [List.length_cons]
          omega

theorem runEpochs_time {RS : Type}
    (shuffle : RS → List (List Feature × Label) → RS × List (List Feature × Label))
    (hlen : ∀ r d, (shuffle r d).2.length = d.length)
    (epochs : ℕ) (data : List (List Feature × Label))
    (m m' : AveragedPerceptron) (r r' : RS)
    (h : runEpochs shuffle (fun m p => AveragedPerceptron.fitOne m p.1 p.2)
        m r data epochs = Except.ok (m', r')) :
    m'.time = m.time + epochs * data.length := by
  induction epochs generalizing m r data with
  | zero =>
      rw [runEpochs] at h
      cases h
      simp
  | succ n ih =>
      rw [runEpochs] at h
      cases hd : runData (fun m p => AveragedPerceptron.fitOne m p.1 p.2) m
          (shuffle r data).2 with
      | error e => rw [hd] at h; cases h
      | ok m₁ =>
          rw [hd] at h
          have h1 := runData_time _ _ _ hd
          have h2 := ih _ m₁ (shuffle r data).1 h
          rw [h2, h1, hlen r data]
          ring

/-- C9: in the averaged variants the logical clock starts at 0 and
increases by exactly 1 per successfully processed training instance:
once per `fit_one` in the binary and multiclass averaged variants, once
per whole sequence in the sequence averaged variant, and across an
entire multi-epoch run the clock ends at exactly
`epochs × (number of instances)` — it accumulates over epoch boundaries
and is never reset (the shuffle collaborator only permutes the data, so
it preserves its length). -/
theorem averaged_time_per_instance :
    AveragedPerceptron.initModel.time = 0
      ∧ BinaryAveragedPerceptron.initModel.time = 0
      ∧ (∀ (m m' : AveragedPerceptron) (x : List Feature) (y yhat : Label),
          AveragedPerceptron.fitOne m x y = Except.ok (m', yhat) →
            m'.time = m.time + 1)
      ∧ (∀ (m m' : BinaryAveragedPerceptron) (x : List Feature) (y : BLabel)
          (yhat : Bool),
          BinaryAveragedPerceptron.fitOne m x y = Except.ok (m', yhat) →
            m'.time = m.time + 1)
      ∧ (∀ (order : ℕ) (m m' : AveragedPerceptron) (xx : List (List Feature))
          (yy yyhat : List Label),
          SequenceAveragedPerceptron.fitOne order m xx yy
              = Except.ok (m', yyhat) →
            m'.time = m.time + 1)
      ∧ (∀ (RS : Type)
          (shuffle : RS → List (List Feature × Label) → RS × List (List Feature × Label)),
          (∀ r d, (shuffle r d).2.length = d.length) →
          ∀ (epochs : ℕ) (data : List (List Feature × Label))
            (m m' : AveragedPerceptron) (r r' : RS),
            runEpochs shuffle (fun m p => AveragedPerceptron.fitOne m p.1 p.2)
                m r data epochs = Except.ok (m', r') →
              m'.time = m.time + epochs * data.length) :=
  ⟨rfl, rfl,
   fun m m' x y yhat h => averagedFitOneTime m x y m' yhat h,
   fun m m' x y yhat h => binaryAveragedFitOneTime m x y m' yhat h,
   fun order m m' xx yy yyhat h =>
     seqAveragedFitOneTime order m xx yy m' yyhat h,
   fun _ shuffle hlen epochs data m m' r r' h =>
     runEpochs_time shuffle hlen epochs data m m' r r' h⟩

/-- Witness for C9: one `fit_one` call on the fresh multiclass averaged
model takes the clock from 0 to 1. -/
theorem averaged_time_per_instance_witness :
    ({ classes := [none, some "N"], weights := [], time := 1 } : AveragedPerceptron).time
      = AveragedPerceptron.initModel.time + 1 :=
  averaged_time_per_instance.2.2.1 AveragedPerceptron.initModel
    { classes := [none, some "N"], weights := [], time := 1 } [] (some "N") none rfl

/-! Helper lemmas about association-list updates and `Perceptron.scores`
(used by the C10 claim). -/

theorem alistMem_cons {κ α : Type} [DecidableEq κ] (p : κ × α)
    (rest : List (κ × α)) (k : κ) :
    alistMem (p :: rest) k = (decide (p.1 = k) || alistMem rest k) := by
  rw [alistMem, List.any_cons, ← alistMem]

theorem alistGetD_cons {κ α : Type} [DecidableEq κ] (p : κ × α)
    (rest : List (κ × α)) (g : κ) (d : α) :
    alistGetD (p :: rest) g d = if p.1 = g then p.2 else alistGetD rest g d := by
  by_cases h : p.1 = g
  · simp [alistGetD, h]
  · simp [alistGetD, h]

theorem alistMem_false_forall {κ α : Type} [DecidableEq κ]
    (l : List (κ × α)) (k : κ) (h : ¬ alistMem l k = true) :
    ∀ p ∈ l, ¬ p.1 = k := by
  intro p hp
  rw [Bool.not_eq_true, alistMem, List.any_eq_false] at h
  simpa using h p hp

theorem alistGetD_not_mem {κ α : Type} [DecidableEq κ] (l : List (κ × α))
    (k : κ) (d : α) (h : ¬ alistMem l k = true) : alistGetD l k d = d := by
  rw [alistGetD, List.find?_eq_none.mpr ?_]
  intro p hp
  simpa using alistMem_false_forall l k h p hp

theorem alistGetD_map_self {κ α : Type} [DecidableEq κ] (l : List (κ × α))
    (k : κ) (d : α) (f : α → α) :
    alistGetD (l.map (fun p => if p.1 = k then (p.1, f p.2) else p)) k d
      = if alistMem l k then f (alistGetD l k d) else d := by
  induction l with
  | nil => simp [alistGetD, alistMem]
  | cons p rest ih =>
      by_cases hp : p.1 = k
      · simp [alistGetD_cons, alistMem_cons, hp]
      · simp only [List.map_cons, if_neg hp, alistGetD_cons, alistMem_cons, ih]
        simp [hp]

theorem alistGetD_map_other {κ α : Type} [DecidableEq κ] (l : List (κ × α))
    (k g : κ) (d : α) (f : α → α) (hg : g ≠ k) :
    alistGetD (l.map (fun p => if p.1 = k then (p.1, f p.2) else p)) g d
      = alistGetD l g d := by
  induction l with
  | nil => rfl
  | cons p rest ih =>
      by_cases hp : p.1 = k
      · have hpg : ¬ p.1 = g := fun h => hg (hp ▸ h.symm ▸ rfl)
        simp only [List.map_cons, if_pos hp, alistGetD_cons, ih]
        simp [hpg]
      · simp only [List.map_cons, if_neg hp, alistGetD_cons, ih]

theorem alistGetD_append_single_other {κ α : Type} [DecidableEq κ]
    (l : List (κ × α)) (k g : κ) (d : α) (v : α) (hg : g ≠ k) :
    alistGetD (l ++ [(k, v)]) g d = alistGetD l g d := by
  rw [alistGetD, List.find?_append, alistGetD]
  have h1 : List.find? (fun p => decide (p.1 = g)) [(k, v)] = none := by
    simp [Ne.symm hg]
  rw [h1, Option.or_none]

theorem alistGetD_upd_self {κ α : Type} [DecidableEq κ] (l : List (κ × α))
    (k : κ) (d : α) (f : α → α) :
    alistGetD (alistUpd l k d f) k d = f (alistGetD l k d) := by
  rw [alistUpd]
  by_cases hmem : alistMem l k
  · rw [if_pos hmem, alistGetD_map_self, if_pos hmem]
  · rw [if_neg hmem, alistGetD, List.find?_append, List.find?_eq_none.mpr ?none]
    case none =>
      intro p hp
      simpa using alistMem_false_forall l k hmem p hp
    rw [Option.none_or, alistGetD_not_mem l k d hmem]
    simp

theorem alistGetD_upd_other {κ α : Type} [DecidableEq κ] (l : List (κ × α))
    (k g : κ) (d : α) (f : α → α) (hg : g ≠ k) :
    alistGetD (alistUpd l k d f) g d = alistGetD l g d := by
  rw [alistUpd]
  by_cases hmem : alistMem l k
  · rw [if_pos hmem, alistGetD_map_other _ _ _ _ _ hg]
  · rw [if_neg hmem, alistGetD_append_single_other _ _ _ _ _ hg]

theorem map_bump_keys {κ α : Type} [DecidableEq κ] (l : List (κ × α))
    (k : κ) (g : κ × α → α) :
    (l.map (fun p => if p.1 = k then (p.1, g p) else p)).map Prod.fst
      = l.map Prod.fst := by
  rw [List.map_map]
  refine List.map_congr_left (fun p _ => ?_)
  by_cases hp : p.1 = k <;> simp [hp]

theorem alistMem_eq_keys_any {κ α : Type} [DecidableEq κ] (l : List (κ × α))
    (k : κ) :
    alistMem l k = (l.map Prod.fst).any (fun a => a = k) := by
  induction l with
  | nil => rfl
  | cons p rest ih =>
      rw [alistMem_cons, ih, List.map_cons, List.any_cons]

theorem scoresBump_keys (s s' : List (Label × ℤ)) (cls : Label) (w : ℤ)
    (h : Perceptron.scoresBump s cls w = Except.ok s') :
    s'.map Prod.fst = s.map Prod.fst := by
  rw [Perceptron.scoresBump] at h
  by_cases hm : alistMem s cls
  · rw [if_pos hm] at h
    cases h
    exact map_bump_keys s cls (fun p => p.2 + w)
  · rw [if_neg hm] at h
    cases h

theorem scoresAddEntry_keys (e : List (Label × ℤ)) :
    ∀ s s', Perceptron.scoresAddEntry s e = Except.ok s' →
      s'.map Prod.fst = s.map Prod.fst := by
  induction e with
  | nil =>
      intro s s' h
      rw [Perceptron.scoresAddEntry] at h
      cases h
      rfl
  | cons p rest ih =>
      intro s s' h
      obtain ⟨cls, w⟩ := p
      rw [Perceptron.scoresAddEntry] at h
      cases hb : Perceptron.scoresBump s cls w with
      | error e => rw [hb] at h; cases h
      | ok s₁ =>
          rw [hb] at h
          rw [ih s₁ s' h, scoresBump_keys s s₁ cls w hb]

theorem scoresBump_self_zero (s : List (Label × ℤ)) (cls : Label)
    (h : alistMem s cls = true) :
    Perceptron.scoresBump s cls 0 = Except.ok s := by
  rw [Perceptron.scoresBump, if_pos h]
  congr 1
  refine (List.map_congr_left (fun p _ => ?_)).trans (List.map_id s)
  obtain ⟨a, b⟩ := p
  by_cases hp : a = cls
  · subst hp
    simp
  · simp [hp]

theorem scoresAddEntry_append (e₁ e₂ : List (Label × ℤ)) :
    ∀ s, Perceptron.scoresAddEntry s (e₁ ++ e₂)
      = match Perceptron.scoresAddEntry s e₁ with
        | Except.error e => Except.error e
        | Except.ok s' => Perceptron.scoresAddEntry s' e₂ := by
  induction e₁ with
  | nil => intro s; rfl
  | cons p rest ih =>
      intro s
      obtain ⟨cls, w⟩ := p
      rw [List.cons_append]
      cases hb : Perceptron.scoresBump s cls w with
      | error e => simp only [Perceptron.scoresAddEntry, hb]
      | ok s₁ =>
          simp only [Perceptron.scoresAddEntry, hb]
          exact ih s₁

theorem scoresAddEntry_ext (s e : List (Label × ℤ)) (y : Label)
    (hy : alistMem s y = true) :
    Perceptron.scoresAddEntry s (e ++ [(y, 0)])
      = Perceptron.scoresAddEntry s e := by
  rw [scoresAddEntry_append]
  cases h : Perceptron.scoresAddEntry s e with
  | error e => rfl
  | ok s' =>
      have hk : alistMem s' y = true := by
        rw [alistMem_eq_keys_any, scoresAddEntry_keys e s s' h,
          ← alistMem_eq_keys_any]
        exact hy
      show Perceptron.scoresAddEntry s' [(y, 0)] = Except.ok s'
      rw [Perceptron.scoresAddEntry, scoresBump_self_zero s' y hk]
      rfl

theorem updateEntry_same (entry : List (Label × ℤ)) (y : Label) (tau : ℤ) :
    Perceptron.updateEntry entry y y tau
      = if alistMem entry y then entry else entry ++ [(y, 0)] := by
  rw [Perceptron.updateEntry]
  by_cases hm : alistMem entry y
  · rw [if_pos hm]
    have hinner : alistUpd entry y 0 (fun v => v + tau)
        = entry.map (fun p => if p.1 = y then (p.1, p.2 + tau) else p) := by
      rw [alistUpd, if_pos hm]
    rw [hinner]
    have hm2 : alistMem
        (entry.map (fun p => if p.1 = y then (p.1, p.2 + tau) else p)) y = true := by
      rw [alistMem_eq_keys_any, map_bump_keys entry y (fun p => p.2 + tau),
        ← alistMem_eq_keys_any]
      exact hm
    rw [alistUpd, if_pos hm2, List.map_map]
    refine (List.map_congr_left (fun p _ => ?_)).trans (List.map_id entry)
    obtain ⟨a, b⟩ := p
    by_cases hp : a = y
    · subst hp
      simp
    · simp [hp]
  · rw [if_neg hm]
    have hinner : alistUpd entry y 0 (fun v => v + tau)
        = entry ++ [(y, 0 + tau)] := by
      rw [alistUpd, if_neg hm]
    rw [hinner]
    have hm2 : alistMem (entry ++ [(y, 0 + tau)]) y = true := by
      rw [alistMem, List.any_append]
      simp
    rw [alistUpd, if_pos hm2, List.map_append]
    have h1 : entry.map (fun p => if p.1 = y then (p.1, p.2 - tau) else p) = entry := by
      refine (List.map_congr_left (fun p hp => ?_)).trans (List.map_id entry)
      obtain ⟨a, b⟩ := p
      simp [alistMem_false_forall entry y hm (a, b) hp]
    rw [h1]
    simp

theorem updateLoop_ext (y : Label) (tau : ℤ) (x : List Feature)
    (w : List (Feature × List (Label × ℤ))) :
    ∀ w₁, (∀ g, alistGetD w₁ g [] = alistGetD w g []
        ∨ alistGetD w₁ g [] = alistGetD w g [] ++ [(y, 0)]) →
      ∀ g, alistGetD (Perceptron.updateLoop w₁ y y tau x) g []
          = alistGetD w g []
        ∨ alistGetD (Perceptron.updateLoop w₁ y y tau x) g []
          = alistGetD w g [] ++ [(y, 0)] := by
  induction x with
  | nil => intro w₁ hext; exact hext
  | cons f fs ih =>
      intro w₁ hext
      rw [Perceptron.updateLoop]
      apply ih
      intro g
      by_cases hgf : g = f
      · subst hgf
        rw [alistGetD_upd_self, updateEntry_same]
        rcases hext g with h | h
        · rw [h]
          by_cases hm : alistMem (alistGetD w g []) y
          · exact Or.inl (by rw [if_pos hm])
          · exact Or.inr (by rw [if_neg hm])
        · rw [h]
          have hm : alistMem (alistGetD w g [] ++ [(y, 0)]) y = true := by
            rw [alistMem, List.any_append]
            simp
          exact Or.inr (by rw [if_pos hm])
      · rw [alistGetD_upd_other _ _ _ _ _ hgf]
        exact hext g

theorem scoresLoop_ext (y : Label) (z : List Feature) (m₁ m₂ : Perceptron)
    (hw : ∀ g, alistGetD m₂.weights g [] = alistGetD m₁.weights g []
        ∨ alistGetD m₂.weights g [] = alistGetD m₁.weights g [] ++ [(y, 0)]) :
    ∀ s, alistMem s y = true →
      Perceptron.scoresLoop m₂ s z = Perceptron.scoresLoop m₁ s z := by
  induction z with
  | nil => intro s _; rfl
  | cons f fs ih =>
      intro s hs
      rw [Perceptron.scoresLoop, Perceptron.scoresLoop]
      have hfeq : Perceptron.scoresAddEntry s (alistGetD m₂.weights f [])
          = Perceptron.scoresAddEntry s (alistGetD m₁.weights f []) := by
        rcases hw f with h | h
        · rw [h]
        · rw [h, scoresAddEntry_ext _ _ _ hs]
      rw [hfeq]
      cases hr : Perceptron.scoresAddEntry s (alistGetD m₁.weights f []) with
      | error e => rfl
      | ok s' =>
          apply ih
          rw [alistMem_eq_keys_any, scoresAddEntry_keys _ _ _ hr,
            ← alistMem_eq_keys_any]
          exact hs

/-- C10 (counterexample): on a fresh model, `update(x, "N", "N")` with
equal gold and hypothesised class is *not* score-invariant: it
materialises a zero-valued entry for the unregistered class `"N"`, after
which `scores({"f1"})` raises `KeyError`, whereas before the update it
returned `{None: 0}`. -/
theorem update_same_class_changes_scores :
    Perceptron.scores
        (Perceptron.update Perceptron.initModel ["f1"] (some "N") (some "N") 1) ["f1"]
        = Except.error PyErr.keyError
      ∧ Perceptron.scores Perceptron.initModel ["f1"]
        = Except.ok [(none, 0)] :=
  ⟨rfl, rfl⟩

/-- C10 (amended): whenever the class `y` is already registered in
`self.classes`, `update(x, y, y)` leaves `scores(z)` unchanged for every
feature set `z`: the `+tau` and `−tau` increments land on the same
`(feature, class)` entry and cancel, and the zero-valued entries this
materialises contribute nothing to any registered class's score. -/
theorem update_same_class_preserves_scores (m : Perceptron)
    (x : List Feature) (y : Label) (tau : ℤ) (z : List Feature)
    (hy : y ∈ m.classes) :
    Perceptron.scores (m.update x y y tau) z = Perceptron.scores m z := by
  rw [Perceptron.scores, Perceptron.scores]
  have hcls : (m.update x y y tau).classes = m.classes := rfl
  rw [hcls]
  have hs : alistMem (m.classes.map (fun c => (c, (0 : ℤ)))) y = true := by
    rw [alistMem, List.any_eq_true]
    exact ⟨(y, 0), List.mem_map_of_mem _ hy, by simp⟩
  have hw : ∀ g, alistGetD (m.update x y y tau).weights g []
      = alistGetD m.weights g []
    ∨ alistGetD (m.update x y y tau).weights g []
      = alistGetD m.weights g [] ++ [(y, 0)] := by
    have : (m.update x y y tau).weights
        = Perceptron.updateLoop m.weights y y tau x := rfl
    rw [this]
    exact updateLoop_ext y tau x m.weights m.weights (fun g => Or.inl rfl)
  exact scoresLoop_ext y z m (m.update x y y tau) hw _ hs

/-- Witness for C10 (amended) on a model with `"N"` registered. -/
theorem update_same_class_preserves_scores_witness :
    Perceptron.scores
        ((⟨[none, some "N"], []⟩ : Perceptron).update ["f1"] (some "N") (some "N") 1) ["f1"]
      = Perceptron.scores (⟨[none, some "N"], []⟩ : Perceptron) ["f1"] :=
  update_same_class_preserves_scores ⟨[none, some "N"], []⟩ ["f1"] (some "N") 1
    ["f1"] (by simp)
